import Mathlib

/-
Verification development for the hermes SSH-honeypot repository.

We give a shallow embedding of the three core components named by the
specification — the container pool (src/sandtrap/container/pool.py), the
session transcript recorder (src/sandtrap/session/recorder.py) and the
container I/O proxy (src/hermes/session/proxy.py) — and prove the spec's
claims about them.

Modelling conventions:
- a Docker container is identified by a natural number (`CId`); the pool
  model carries a `nextId` counter, and every successful creation through
  the Docker client yields the fresh id `nextId` (Docker never returns an
  id of an existing container);
- outcomes of the external Docker calls (create/start attempts succeeding
  or raising `docker.errors.DockerException`, `container.stop` succeeding
  or raising) are inputs of the model: each operation takes the outcomes
  of the calls it performs as explicit arguments, and the body then follows
  the Python control flow (try/except) literally;
- `datetime.utcnow()` timestamps are modelled by a `now : Nat` counter in
  the pool state that ticks each time it is read;
- asyncio concurrency is modelled by interleaving whole operations: the
  pool's collections are only touched under `self._lock`, so the visible
  states are the quiescent states between lock regions, and a trace is a
  list of atomic actions (`initialize`, `allocate`, `release`, the
  background replacement-spawn task body, `shutdown`).
-/

namespace Hermes

/-- Identity of a Docker container handle. -/
abbrev CId := Nat

/-! ### ContainerPool._create_container (pool.py lines 235-289)

`_create_container` builds the container config, then tries
`containers.create(...)` + `container.start()`; on `DockerException` it
sleeps 2 seconds and retries the same create+start exactly once; a second
`DockerException` is wrapped in a `RuntimeError` and raised.  A
`CreateSpec` records whether each of the two possible attempts would
succeed; the Docker runtime's interface (spec section 6) raises
`DockerException` from create/start. -/
structure CreateSpec where
  firstOk : Bool
  retryOk : Bool
deriving Repr, DecidableEq

/-- Whether `_create_container` returns a container for these outcomes. -/
def CreateSpec.ok (cs : CreateSpec) : Bool := cs.firstOk || cs.retryOk

/-- Number of create+start attempts `_create_container` performs. -/
def CreateSpec.attempts (cs : CreateSpec) : Nat := if cs.firstOk then 1 else 2

/-- The `time.sleep(2)` backoffs `_create_container` performs, in seconds. -/
def CreateSpec.backoffs (cs : CreateSpec) : List Nat := if cs.firstOk then [] else [2]

/-- Pool state: the three collections of `ContainerPool` plus the fresh-id
counter, the timestamp counter and the `_shutdown` flag.  `active` models
the Python dict `active_sessions` as an insertion-ordered association
list; `stopped` holds `(container, stop-timestamp)` pairs. -/
structure PoolState where
  ready : List CId
  active : List (String × CId)
  stopped : List (CId × Nat)
  nextId : Nat
  now : Nat
  shutdownFlag : Bool
deriving Repr, DecidableEq

/-- The ids Docker hands out for a batch of `k` successful creations when
the pool has already created `n` containers. -/
def freshBatch (n k : Nat) : List CId := (List.range k).map (fun i => n + i)

/-- Dict lookup `active_sessions[session_id]` (as an Option). -/
def lookupActive : List (String × CId) → String → Option CId
  | [], _ => none
  | p :: rest, sid => if p.1 = sid then some p.2 else lookupActive rest sid

/-- Dict assignment `active_sessions[session_id] = container`: replaces the
value in place when the key is present, appends otherwise (Python dicts
preserve insertion order and keep a present key's position). -/
def insertActive : List (String × CId) → String → CId → List (String × CId)
  | [], sid, c => [(sid, c)]
  | p :: rest, sid, c =>
      if p.1 = sid then (sid, c) :: rest else p :: insertActive rest sid c

/-- Dict removal `active_sessions.pop(session_id)` (value already obtained
with `lookupActive`). -/
def eraseActive (m : List (String × CId)) (sid : String) : List (String × CId) :=
  m.filter (fun p => p.1 ≠ sid)

/-- One `container.stop` pass over a list of containers, as in
`ContainerPool._cleanup_ready_containers` and the active-container loop of
`ContainerPool.shutdown`: each container's stop is attempted; when the
stop succeeds the pair `(container, utcnow)` is appended to the stopped
list; when it raises, the exception is caught and logged and the container
is NOT appended.  `stopOk` gives the outcome of each stop call. -/
def cleanupStops : List CId → (CId → Bool) → List (CId × Nat) → Nat →
    List (CId × Nat) × Nat
  | [], _, st, now => (st, now)
  | c :: rest, stopOk, st, now =>
      if stopOk c then cleanupStops rest stopOk (st ++ [(c, now)]) (now + 1)
      else cleanupStops rest stopOk st now

/-- Result of `ContainerPool.initialize` (pool.py lines 64-96), instrumented
with the containers created during the call and the containers whose stop
was attempted during cleanup. -/
structure InitOut where
  state : PoolState
  created : List CId
  stopAttempts : List CId
  failed : Bool
deriving Repr, DecidableEq

/-- `ContainerPool.initialize`: runs `config.size` creations concurrently
via `asyncio.gather`.  Every task runs to completion even when another
raises, so each succeeding creation produces a (fresh) container whether or
not the whole gather succeeds.  If all succeed, the containers are appended
to `ready_pool`.  If any raises, `_cleanup_ready_containers()` is called —
which stops and archives only the containers currently in `ready_pool` —
and a pool-initialization `RuntimeError` is raised.  `outcomes` gives the
per-creation attempt outcomes, `stopOk` the outcomes of the cleanup stop
calls. -/
def initPoolOp (s : PoolState) (outcomes : List CreateSpec) (stopOk : CId → Bool) :
    InitOut :=
  if outcomes.all CreateSpec.ok then
    { state := { s with
        nextId := s.nextId + (outcomes.filter CreateSpec.ok).length,
        ready := s.ready ++ freshBatch s.nextId ((outcomes.filter CreateSpec.ok).length) },
      created := freshBatch s.nextId ((outcomes.filter CreateSpec.ok).length),
      stopAttempts := [], failed := false }
  else
    { state := { s with
        nextId := s.nextId + (outcomes.filter CreateSpec.ok).length,
        ready := [],
        stopped := (cleanupStops s.ready stopOk s.stopped s.now).1,
        now := (cleanupStops s.ready stopOk s.stopped s.now).2 },
      created := freshBatch s.nextId ((outcomes.filter CreateSpec.ok).length),
      stopAttempts := s.ready, failed := true }

/-- Errors raised out of the pool (both are `RuntimeError` in the code). -/
inductive PoolErr where
  | allocationFailed
  | initFailed
deriving Repr, DecidableEq

/-- `ContainerPool.allocate` (pool.py lines 98-147): under the lock, pop
the last element of `ready_pool` if non-empty, else create one container
on demand (raising `RuntimeError` if `_create_container` fails, with the
session never inserted into `active_sessions`); then bind the container to
`session_id` in `active_sessions`.  The `container.reload()` call only
refreshes cached info and its failure is swallowed, so it does not appear
in the state model.  The background replacement spawn scheduled after the
lock is a separate trace action (`spawnReplacementOp`). -/
def allocateOp (s : PoolState) (sid : String) (cs : CreateSpec) :
    Except PoolErr CId × PoolState :=
  match s.ready.getLast? with
  | some c =>
      (Except.ok c,
        { s with ready := s.ready.dropLast, active := insertActive s.active sid c })
  | none =>
      if cs.ok then
        (Except.ok s.nextId,
          { s with nextId := s.nextId + 1,
                   active := insertActive s.active sid s.nextId })
      else (Except.error PoolErr.allocationFailed, s)

/-- `ContainerPool.release` (pool.py lines 149-187): under the lock, if
`session_id` is absent from `active_sessions` log a warning and return
(no stop call, nothing appended); otherwise pop the container.  Outside
the lock attempt `container.stop()`: on success append
`(container, utcnow)` to `stopped_containers` under the lock; on failure
catch and log — the container is NOT appended to the stopped list.  The
returned list is the containers on which a stop was attempted.  `release`
never raises (the function is total and returns no error). -/
def releaseOp (s : PoolState) (sid : String) (stopOk : Bool) :
    PoolState × List CId :=
  match lookupActive s.active sid with
  | none => (s, [])
  | some c =>
      let s1 := { s with active := eraseActive s.active sid }
      if stopOk then
        ({ s1 with stopped := s1.stopped ++ [(c, s1.now)], now := s1.now + 1 }, [c])
      else (s1, [c])

/-- Body of the background task `ContainerPool._spawn_replacement`
(pool.py lines 291-317): returns immediately when `_shutdown` is set;
otherwise creates one container via `_create_container_sync` (all failures
caught and logged, never raised) and, under the lock, appends it to
`ready_pool` when `_shutdown` is still unset (when it has been set
meanwhile the container is stopped and dropped, not archived). -/
def spawnReplacementOp (s : PoolState) (cs : CreateSpec) : PoolState :=
  if s.shutdownFlag then s
  else if cs.ok then
    { s with nextId := s.nextId + 1, ready := s.ready ++ [s.nextId] }
  else s

/-- `ContainerPool.shutdown` (pool.py lines 189-217): sets `_shutdown`,
then under the lock stops every active container (appending each
successfully stopped one, with a timestamp, to `stopped_containers`;
tolerating individual failures), clears `active_sessions`, and then runs
`_cleanup_ready_containers()` over `ready_pool` the same way.  The
returned list is the containers on which a stop was attempted.  `shutdown`
never raises. -/
def shutdownOp (s : PoolState) (stopOk : CId → Bool) : PoolState × List CId :=
  let s0 := { s with shutdownFlag := true }
  let actVals := s0.active.map Prod.snd
  let p1 := cleanupStops actVals stopOk s0.stopped s0.now
  let s1 := { s0 with active := [], stopped := p1.1, now := p1.2 }
  let p2 := cleanupStops s1.ready stopOk s1.stopped s1.now
  ({ s1 with ready := [], stopped := p2.1, now := p2.2 }, actVals ++ s1.ready)

/-- One atomic pool action, carrying the outcomes of the external Docker
calls it performs. -/
inductive Action where
  | initPool (outcomes : List CreateSpec) (stopOk : CId → Bool)
  | allocate (sid : String) (cs : CreateSpec)
  | release (sid : String) (stopOk : Bool)
  | spawnReplacement (cs : CreateSpec)
  | shutdown (stopOk : CId → Bool)

/-- State transition of one pool action. -/
def step (s : PoolState) : Action → PoolState
  | Action.initPool outs f => (initPoolOp s outs f).state
  | Action.allocate sid cs => (allocateOp s sid cs).2
  | Action.release sid ok => (releaseOp s sid ok).1
  | Action.spawnReplacement cs => spawnReplacementOp s cs
  | Action.shutdown f => (shutdownOp s f).1

/-- Run a trace of pool actions. -/
def runPool (s : PoolState) : List Action → PoolState
  | [] => s
  | a :: rest => runPool (step s a) rest

/-- The state built by `ContainerPool.__init__`: all collections empty,
shutdown flag unset. -/
def initState : PoolState :=
  { ready := [], active := [], stopped := [], nextId := 0, now := 0,
    shutdownFlag := false }

/-- A pool state reachable by some trace of operations from a fresh pool. -/
def Reachable (s : PoolState) : Prop := ∃ acts, runPool initState acts = s

/-- Container ids held in the active map. -/
def activeVals (s : PoolState) : List CId := s.active.map Prod.snd

/-- Session ids keying the active map. -/
def activeKeys (s : PoolState) : List String := s.active.map Prod.fst

/-- Container ids in the stopped archive. -/
def stoppedIds (s : PoolState) : List CId := s.stopped.map Prod.fst

/-- All container ids the pool currently holds, across the three
collections. -/
def poolIds (s : PoolState) : List CId := s.ready ++ activeVals s ++ stoppedIds s

/-- The pool ownership invariant: no container id occurs twice across
(or within) the ready queue, the active map's values and the stopped
archive; active-map keys are unique; and every held id is below the
fresh-id counter. -/
def PoolInv (s : PoolState) : Prop :=
  (poolIds s).Nodup ∧ (activeKeys s).Nodup ∧ ∀ c ∈ poolIds s, c < s.nextId

end Hermes

namespace Hermes

/-- Looking up a key absent from the association list yields `none`. -/
lemma lookupActive_eq_none_iff (m : List (String × CId)) (sid : String) :
    lookupActive m sid = none ↔ sid ∉ m.map Prod.fst := by
  induction m with
  | nil => simp [lookupActive]
  | cons p rest ih =>
      by_cases h : p.1 = sid
      · simp [lookupActive, h]
      · rw [List.map_cons, List.mem_cons]
        simp only [lookupActive, if_neg h, ih]
        constructor
        · intro hn hmem
          rcases hmem with hmem | hmem
          · exact h hmem.symm
          · exact hn hmem
        · intro hn hmem
          exact hn (Or.inr hmem)

/-- Erasing a key that is not present leaves the association list unchanged. -/
lemma eraseActive_of_not_mem (m : List (String × CId)) (sid : String)
    (h : sid ∉ m.map Prod.fst) : eraseActive m sid = m := by
  induction m with
  | nil => rfl
  | cons p rest ih =>
      rw [List.map_cons, List.mem_cons] at h
      push_neg at h
      have hp : p.1 ≠ sid := fun hh => h.1 hh.symm
      have hrest := ih h.2
      simp only [eraseActive] at hrest ⊢
      rw [List.filter_cons_of_pos (by simpa using hp), hrest]

/-- Erasure is a sublist of the original association list. -/
lemma eraseActive_sublist (m : List (String × CId)) (sid : String) :
    List.Sublist (eraseActive m sid) m :=
  List.filter_sublist m

/-- With unique keys, the values of the map are (up to permutation) the
looked-up value together with the values after erasure. -/
lemma vals_erase_perm (m : List (String × CId)) (sid : String) (c : CId)
    (hk : (m.map Prod.fst).Nodup) (h : lookupActive m sid = some c) :
    (m.map Prod.snd).Perm (c :: (eraseActive m sid).map Prod.snd) := by
  induction m with
  | nil => simp [lookupActive] at h
  | cons p rest ih =>
      simp only [List.map_cons, List.nodup_cons] at hk
      by_cases hp : p.1 = sid
      · have hc : p.2 = c := by
          have hsome : some p.2 = some c := by rw [← h]; simp [lookupActive, hp]
          exact Option.some.inj hsome
        have hrest : eraseActive rest sid = rest := by
          apply eraseActive_of_not_mem
          rw [← hp]; exact hk.1
        have he : eraseActive (p :: rest) sid = rest := by
          simp only [eraseActive] at hrest ⊢
          rw [List.filter_cons_of_neg (by simp [hp]), hrest]
        rw [he, List.map_cons, hc]
      · have h2 : lookupActive rest sid = some c := by
          rw [← h]; simp [lookupActive, hp]
        have he : eraseActive (p :: rest) sid = p :: eraseActive rest sid := by
          simp only [eraseActive]
          rw [List.filter_cons_of_pos (by simp [hp])]
        rw [he, List.map_cons, List.map_cons]
        exact ((ih hk.2 h2).cons p.2).trans (List.Perm.swap c p.2 _)

/-- Every key of the updated map is a key of the original map or the
inserted key. -/
lemma insertActive_keys_subset (m : List (String × CId)) (sid : String) (c : CId) :
    ∀ x ∈ (insertActive m sid c).map Prod.fst, x ∈ m.map Prod.fst ∨ x = sid := by
  induction m with
  | nil => simp [insertActive]
  | cons p rest ih =>
      intro x hx
      by_cases hp : p.1 = sid
      · simp only [insertActive, if_pos hp, List.map_cons, List.mem_cons] at hx
        rcases hx with hx | hx
        · exact Or.inr hx
        · exact Or.inl (by rw [List.map_cons]; exact List.mem_cons_of_mem _ hx)
      · simp only [insertActive, if_neg hp, List.map_cons, List.mem_cons] at hx
        rcases hx with hx | hx
        · exact Or.inl (by rw [List.map_cons, hx]; exact List.mem_cons_self _ _)
        · rcases ih x hx with h1 | h1
          · exact Or.inl (by rw [List.map_cons]; exact List.mem_cons_of_mem _ h1)
          · exact Or.inr h1

/-- Dict assignment preserves uniqueness of keys. -/
lemma insertActive_keys_nodup (m : List (String × CId)) (sid : String) (c : CId)
    (hk : (m.map Prod.fst).Nodup) :
    ((insertActive m sid c).map Prod.fst).Nodup := by
  induction m with
  | nil => simp [insertActive]
  | cons p rest ih =>
      simp only [List.map_cons, List.nodup_cons] at hk
      by_cases hp : p.1 = sid
      · simp only [insertActive, if_pos hp, List.map_cons, List.nodup_cons]
        refine ⟨?_, hk.2⟩
        rw [← hp]; exact hk.1
      · simp only [insertActive, if_neg hp, List.map_cons, List.nodup_cons]
        refine ⟨?_, ih hk.2⟩
        intro hmem
        rcases insertActive_keys_subset rest sid c _ hmem with h1 | h1
        · exact hk.1 h1
        · exact hp h1

/-- The values of the updated map form a sub-multiset of the inserted value
together with the original values (insertion either appends `c` or
replaces one original value by `c`). -/
lemma insertActive_vals_le (m : List (String × CId)) (sid : String) (c : CId) :
    (((insertActive m sid c).map Prod.snd : List CId) : Multiset CId) ≤
      c ::ₘ ((m.map Prod.snd : List CId) : Multiset CId) := by
  induction m with
  | nil => simp [insertActive]
  | cons p rest ih =>
      by_cases hp : p.1 = sid
      · simp only [insertActive, if_pos hp, List.map_cons, ← Multiset.cons_coe]
        exact Multiset.cons_le_cons c (Multiset.le_cons_self _ _)
      · simp only [insertActive, if_neg hp, List.map_cons, ← Multiset.cons_coe]
        rw [Multiset.cons_swap]
        exact Multiset.cons_le_cons p.2 ih

/-- The inserted value is among the values of the updated map. -/
lemma insertActive_val_mem (m : List (String × CId)) (sid : String) (c : CId) :
    c ∈ (insertActive m sid c).map Prod.snd := by
  induction m with
  | nil => simp [insertActive]
  | cons p rest ih =>
      by_cases hp : p.1 = sid
      · simp [insertActive, hp]
      · simp only [insertActive, if_neg hp, List.map_cons, List.mem_cons]
        right; exact ih

/-- The archive after a stop pass holds the original archived ids followed
by exactly the ids whose stop call succeeded. -/
lemma cleanupStops_fst (cs : List CId) (f : CId → Bool) :
    ∀ st now, ((cleanupStops cs f st now).1).map Prod.fst =
      st.map Prod.fst ++ cs.filter f := by
  induction cs with
  | nil => intro st now; simp [cleanupStops]
  | cons c rest ih =>
      intro st now
      by_cases hc : f c
      · simp [cleanupStops, hc, ih, List.filter_cons]
      · simp [cleanupStops, hc, ih, List.filter_cons]

end Hermes

namespace Hermes

/-- Order-free (multiset) view of the held container ids. -/
lemma poolIds_coe (s : PoolState) :
    ((poolIds s : List CId) : Multiset CId) =
      (s.ready : Multiset CId) + ↑(activeVals s) + ↑(stoppedIds s) := by
  simp [poolIds, ← Multiset.coe_add, add_assoc]

/-- Gluing lemma: a step whose held containers are covered by the old
held containers plus some fresh ids preserves the pool invariant. -/
lemma PoolInv.of_le {s s2 : PoolState} (hs : PoolInv s) (fresh : List CId)
    (hle : ((poolIds s2 : List CId) : Multiset CId) ≤ ↑(poolIds s) + ↑fresh)
    (hf : fresh.Nodup)
    (hfb : ∀ x ∈ fresh, s.nextId ≤ x ∧ x < s2.nextId)
    (hnn : s.nextId ≤ s2.nextId)
    (hkeys : (activeKeys s2).Nodup) : PoolInv s2 := by
  obtain ⟨h1, h2, h3⟩ := hs
  refine ⟨?_, hkeys, ?_⟩
  · rw [← Multiset.coe_nodup]
    refine Multiset.nodup_of_le hle ?_
    rw [Multiset.nodup_add]
    refine ⟨Multiset.coe_nodup.2 h1, Multiset.coe_nodup.2 hf, ?_⟩
    rw [Multiset.disjoint_left]
    intro a ha hafresh
    rw [Multiset.mem_coe] at ha hafresh
    exact absurd (hfb a hafresh).1 (Nat.not_le.2 (h3 a ha))
  · intro c hc
    have hmem : c ∈ ((poolIds s : List CId) : Multiset CId) + ↑fresh :=
      Multiset.mem_of_le hle (Multiset.mem_coe.2 hc)
    rw [Multiset.mem_add] at hmem
    rcases hmem with h | h
    · exact lt_of_lt_of_le (h3 c (Multiset.mem_coe.1 h)) hnn
    · exact (hfb c (Multiset.mem_coe.1 h)).2

/-- The fresh ids handed out by a batch of successful creations are
distinct. -/
lemma freshBatch_nodup (n k : Nat) : (freshBatch n k).Nodup :=
  (List.nodup_range k).map (fun _ _ h => Nat.add_left_cancel h)

/-- The fresh ids of a creation batch lie between the old and the new
counter. -/
lemma freshBatch_bounds (n k : Nat) :
    ∀ x ∈ freshBatch n k, n ≤ x ∧ x < n + k := by
  intro x hx
  simp only [freshBatch, List.mem_map, List.mem_range] at hx
  obtain ⟨i, hi, rfl⟩ := hx
  exact ⟨Nat.le_add_right n i, Nat.add_lt_add_left hi n⟩

/-- `initialize` preserves the pool invariant. -/
lemma initPool_inv (s : PoolState) (outs : List CreateSpec) (f : CId → Bool)
    (h : PoolInv s) : PoolInv (initPoolOp s outs f).state := by
  by_cases hall : outs.all CreateSpec.ok
  · refine h.of_le (freshBatch s.nextId ((outs.filter CreateSpec.ok).length)) ?_
      (freshBatch_nodup _ _) ?_ ?_ ?_
    · simp only [initPoolOp, if_pos hall]
      rw [poolIds_coe, poolIds_coe, Multiset.le_iff_count]
      intro a
      simp only [activeVals, stoppedIds, Multiset.count_add, Multiset.coe_count,
        List.count_append]
      omega
    · simp only [initPoolOp, if_pos hall]
      exact freshBatch_bounds _ _
    · simp only [initPoolOp, if_pos hall]
      exact Nat.le_add_right _ _
    · simp only [initPoolOp, if_pos hall, activeKeys]
      exact h.2.1
  · refine h.of_le [] ?_ List.nodup_nil (by simp) ?_ ?_
    · simp only [initPoolOp, if_neg hall]
      rw [poolIds_coe, poolIds_coe, Multiset.le_iff_count]
      intro a
      simp only [activeVals, stoppedIds, cleanupStops_fst, Multiset.count_add,
        Multiset.coe_count, List.count_append, List.count_nil]
      have hcnt := (List.filter_sublist (l := s.ready) (p := f)).count_le a
      omega
    · simp only [initPoolOp, if_neg hall]
      exact Nat.le_add_right _ _
    · simp only [initPoolOp, if_neg hall, activeKeys]
      exact h.2.1

/-- `allocate` preserves the pool invariant. -/
lemma allocate_inv (s : PoolState) (sid : String) (cs : CreateSpec)
    (h : PoolInv s) : PoolInv (allocateOp s sid cs).2 := by
  rcases hl : s.ready.getLast? with _ | c
  · have hready : s.ready = [] := List.getLast?_eq_none_iff.1 hl
    by_cases hok : cs.ok
    · refine h.of_le [s.nextId] ?_ (List.nodup_singleton _) ?_ ?_ ?_
      · simp only [allocateOp, hl, hok, if_pos]
        rw [poolIds_coe, poolIds_coe, Multiset.le_iff_count]
        intro a
        have hins := Multiset.count_le_of_le a
          (insertActive_vals_le s.active sid s.nextId)
        simp only [Multiset.count_cons, Multiset.coe_count] at hins
        simp only [activeVals, stoppedIds, Multiset.count_add, Multiset.coe_count,
          List.count_singleton, hready, List.count_nil]
        by_cases ha : a = s.nextId <;> simp [ha] at hins ⊢ <;> omega
      · intro x hx
        simp only [allocateOp, hl, hok, if_pos, List.mem_singleton] at hx ⊢
        subst hx
        exact ⟨le_refl _, Nat.lt_succ_self _⟩
      · simp only [allocateOp, hl, hok, if_pos]
        exact Nat.le_succ _
      · simp only [allocateOp, hl, hok, if_pos, activeKeys]
        exact insertActive_keys_nodup _ _ _ h.2.1
    · simp only [allocateOp, hl, if_neg hok]
      exact h
  · obtain ⟨l, hready⟩ := List.getLast?_eq_some_iff.1 hl
    refine h.of_le [] ?_ List.nodup_nil (by simp) ?_ ?_
    · simp only [allocateOp, hl]
      rw [poolIds_coe, poolIds_coe, Multiset.le_iff_count]
      intro a
      have hins := Multiset.count_le_of_le a
        (insertActive_vals_le s.active sid c)
      simp only [Multiset.count_cons, Multiset.coe_count] at hins
      simp only [activeVals, stoppedIds, Multiset.count_add, Multiset.coe_count,
        List.count_nil, hready, List.dropLast_concat, List.count_append,
        List.count_singleton]
      by_cases ha : a = c <;> simp [ha] at hins ⊢ <;> omega
    · simp only [allocateOp, hl]
      exact le_refl _
    · simp only [allocateOp, hl, activeKeys]
      exact insertActive_keys_nodup _ _ _ h.2.1

/-- `release` preserves the pool invariant. -/
lemma release_inv (s : PoolState) (sid : String) (stopOk : Bool)
    (h : PoolInv s) : PoolInv (releaseOp s sid stopOk).1 := by
  rcases hl : lookupActive s.active sid with _ | c
  · simp only [releaseOp, hl]
    exact h
  · have hperm := vals_erase_perm s.active sid c h.2.1 hl
    have hkeys : ((eraseActive s.active sid).map Prod.fst).Nodup :=
      h.2.1.sublist ((eraseActive_sublist s.active sid).map Prod.fst)
    by_cases hst : stopOk
    · refine h.of_le [] ?_ List.nodup_nil (by simp) ?_ ?_
      · simp only [releaseOp, hl, if_pos hst]
        rw [poolIds_coe, poolIds_coe, Multiset.le_iff_count]
        intro a
        have hcnt := hperm.count_eq a
        simp only [List.count_cons] at hcnt
        simp only [activeVals, stoppedIds, Multiset.count_add, Multiset.coe_count,
          List.count_append, List.map_append, List.map_cons, List.map_nil,
          List.count_singleton]
        by_cases ha : a = c <;> simp [ha] at hcnt ⊢ <;> omega
      · simp only [releaseOp, hl, if_pos hst]
        exact le_refl _
      · simp only [releaseOp, hl, if_pos hst, activeKeys]
        exact hkeys
    · refine h.of_le [] ?_ List.nodup_nil (by simp) ?_ ?_
      · simp only [releaseOp, hl, if_neg hst]
        rw [poolIds_coe, poolIds_coe, Multiset.le_iff_count]
        intro a
        have hcnt := hperm.count_eq a
        simp only [List.count_cons] at hcnt
        simp only [activeVals, stoppedIds, Multiset.count_add, Multiset.coe_count]
        by_cases ha : a = c <;> simp [ha] at hcnt ⊢ <;> omega
      · simp only [releaseOp, hl, if_neg hst]
        exact le_refl _
      · simp only [releaseOp, hl, if_neg hst, activeKeys]
        exact hkeys

/-- The background replacement spawn preserves the pool invariant. -/
lemma spawnReplacement_inv (s : PoolState) (cs : CreateSpec)
    (h : PoolInv s) : PoolInv (spawnReplacementOp s cs) := by
  by_cases hsd : s.shutdownFlag
  · simp only [spawnReplacementOp, if_pos hsd]
    exact h
  · by_cases hok : cs.ok
    · refine h.of_le [s.nextId] ?_ (List.nodup_singleton _) ?_ ?_ ?_
      · simp only [spawnReplacementOp, if_neg hsd, hok, if_pos]
        rw [poolIds_coe, poolIds_coe, Multiset.le_iff_count]
        intro a
        simp only [activeVals, stoppedIds, Multiset.count_add, Multiset.coe_count,
          List.count_append, List.count_singleton]
        omega
      · intro x hx
        simp only [List.mem_singleton] at hx
        subst hx
        simp only [spawnReplacementOp, if_neg hsd, hok, if_pos]
        exact ⟨le_refl _, Nat.lt_succ_self _⟩
      · simp only [spawnReplacementOp, if_neg hsd, hok, if_pos]
        exact Nat.le_succ _
      · simp only [spawnReplacementOp, if_neg hsd, hok, if_pos, activeKeys]
        exact h.2.1
    · simp only [spawnReplacementOp, if_neg hsd, hok, if_neg, Bool.false_eq_true]
      exact h

/-- `shutdown` preserves the pool invariant. -/
lemma shutdown_inv (s : PoolState) (f : CId → Bool)
    (h : PoolInv s) : PoolInv (shutdownOp s f).1 := by
  refine h.of_le [] ?_ List.nodup_nil (by simp) ?_ ?_
  · simp only [shutdownOp]
    rw [poolIds_coe, poolIds_coe, Multiset.le_iff_count]
    intro a
    simp only [activeVals, stoppedIds, cleanupStops_fst, Multiset.count_add,
      Multiset.coe_count, List.count_append, List.count_nil]
    have h1 := (List.filter_sublist (l := s.active.map Prod.snd) (p := f)).count_le a
    have h2 := (List.filter_sublist (l := s.ready) (p := f)).count_le a
    simp only [List.map_nil, List.count_nil]
    omega
  · simp only [shutdownOp]
    exact le_refl _
  · simp only [shutdownOp, activeKeys, List.map_nil]
    exact List.nodup_nil

/-- Every pool action preserves the pool invariant. -/
lemma step_inv (s : PoolState) (a : Action) (h : PoolInv s) :
    PoolInv (step s a) := by
  cases a with
  | initPool outs f => exact initPool_inv s outs f h
  | allocate sid cs => exact allocate_inv s sid cs h
  | release sid ok => exact release_inv s sid ok h
  | spawnReplacement cs => exact spawnReplacement_inv s cs h
  | shutdown f => exact shutdown_inv s f h

/-- Traces preserve the pool invariant. -/
lemma runPool_inv (acts : List Action) :
    ∀ s, PoolInv s → PoolInv (runPool s acts) := by
  induction acts with
  | nil => intro s h; exact h
  | cons a rest ih => intro s h; exact ih _ (step_inv s a h)

/-- The fresh pool satisfies the invariant. -/
lemma initState_inv : PoolInv initState := by
  refine ⟨?_, ?_, ?_⟩ <;> simp [initState, poolIds, activeVals, stoppedIds, activeKeys]

/-- Every reachable pool state satisfies the invariant. -/
lemma reachable_inv (s : PoolState) (h : Reachable s) : PoolInv s := by
  obtain ⟨acts, rfl⟩ := h
  exact runPool_inv acts initState initState_inv

end Hermes

namespace Hermes

/-- Two successive successful allocations return distinct containers. -/
lemma allocate_allocate_distinct (s : PoolState) (h : PoolInv s)
    (sid1 sid2 : String) (cs1 cs2 : CreateSpec) (c1 c2 : CId)
    (h1 : (allocateOp s sid1 cs1).1 = Except.ok c1)
    (h2 : (allocateOp ((allocateOp s sid1 cs1).2) sid2 cs2).1 = Except.ok c2) :
    c1 ≠ c2 := by
  have hnodready : s.ready.Nodup := by
    have := h.1
    rw [poolIds, List.append_assoc, List.nodup_append] at this
    exact this.1
  rcases hl : s.ready.getLast? with _ | c
  · have hready : s.ready = [] := List.getLast?_eq_none_iff.1 hl
    by_cases hok : cs1.ok
    · have hc1 : c1 = s.nextId := by
        simp only [allocateOp, hl, hok, if_pos] at h1
        exact (Except.ok.inj h1).symm
      have hs1 : (allocateOp s sid1 cs1).2 =
          { s with nextId := s.nextId + 1,
                   active := insertActive s.active sid1 s.nextId } := by
        simp only [allocateOp, hl, hok, if_pos]
      rw [hs1] at h2
      have hl2 :
          ({ s with nextId := s.nextId + 1,
                    active := insertActive s.active sid1 s.nextId } :
            PoolState).ready.getLast? = none := by
        simp [hready]
      by_cases hok2 : cs2.ok
      · simp only [allocateOp, hl2, hok2, if_pos] at h2
        have hc2 : c2 = s.nextId + 1 := (Except.ok.inj h2).symm
        rw [hc1, hc2]
        exact Nat.ne_of_lt (Nat.lt_succ_self _)
      · exfalso
        simp [allocateOp, hl2, hok2] at h2
    · exfalso
      simp [allocateOp, hl, hok] at h1
  · have hc1 : c1 = c := by
      simp only [allocateOp, hl] at h1
      exact (Except.ok.inj h1).symm
    obtain ⟨l, hready⟩ := List.getLast?_eq_some_iff.1 hl
    have hdrop : s.ready.dropLast = l := by
      rw [hready, List.dropLast_concat]
    have hcl : c ∉ l := by
      rw [hready, List.nodup_append] at hnodready
      intro hmem
      exact hnodready.2.2 hmem (List.mem_singleton_self c)
    have hcm : c ∈ s.ready := by
      rw [hready]
      exact List.mem_append_right _ (List.mem_singleton_self c)
    have hclt : c < s.nextId := by
      refine h.2.2 c ?_
      rw [poolIds]
      exact List.mem_append_left _ (List.mem_append_left _ hcm)
    have hs1 : (allocateOp s sid1 cs1).2 =
        { s with ready := s.ready.dropLast,
                 active := insertActive s.active sid1 c } := by
      simp only [allocateOp, hl]
    rw [hs1] at h2
    rcases hl2 : l.getLast? with _ | cb
    · have hl2b :
          ({ s with ready := s.ready.dropLast,
                    active := insertActive s.active sid1 c } :
            PoolState).ready.getLast? = none := by
        simp [hdrop, hl2]
      by_cases hok2 : cs2.ok
      · simp only [allocateOp, hl2b, hok2, if_pos] at h2
        have hc2 : c2 = s.nextId := (Except.ok.inj h2).symm
        rw [hc1, hc2]
        exact Nat.ne_of_lt hclt
      · exfalso
        simp [allocateOp, hl2b, hok2] at h2
    · have hl2b :
          ({ s with ready := s.ready.dropLast,
                    active := insertActive s.active sid1 c } :
            PoolState).ready.getLast? = some cb := by
        simp [hdrop, hl2]
      simp only [allocateOp, hl2b] at h2
      have hc2 : c2 = cb := (Except.ok.inj h2).symm
      have hmem : cb ∈ l := List.mem_of_getLast?_eq_some hl2
      intro hcc
      rw [hc1, hc2] at hcc
      exact hcl (hcc ▸ hmem)

/-- C3: for all reachable pool states — any sequence of initialize,
allocate, release, shutdown and replacement-spawn steps — the ready
queue, the active map's values and the stopped list's containers are
pairwise disjoint, no container appears under two distinct keys of the
active map (the active values are distinct, and the keys are unique),
and two allocate calls with distinct session ids never receive the same
container. -/
theorem pool_ownership_invariant (s : PoolState) (hs : Reachable s) :
    s.ready.Disjoint (activeVals s) ∧
    s.ready.Disjoint (stoppedIds s) ∧
    (activeVals s).Disjoint (stoppedIds s) ∧
    (activeVals s).Nodup ∧
    (activeKeys s).Nodup ∧
    (∀ sid1 sid2 cs1 cs2 c1 c2, sid1 ≠ sid2 →
      (allocateOp s sid1 cs1).1 = Except.ok c1 →
      (allocateOp ((allocateOp s sid1 cs1).2) sid2 cs2).1 = Except.ok c2 →
      c1 ≠ c2) := by
  have h := reachable_inv s hs
  have h1 := h.1
  rw [poolIds, List.append_assoc, List.nodup_append] at h1
  have hvs := h1.2.1
  rw [List.nodup_append] at hvs
  have hdis := h1.2.2
  rw [List.disjoint_append_right] at hdis
  exact ⟨hdis.1, hdis.2, hvs.2.2, hvs.1, h.2.1,
    fun sid1 sid2 cs1 cs2 c1 c2 _ ha hb =>
      allocate_allocate_distinct s h sid1 sid2 cs1 cs2 c1 c2 ha hb⟩

/-- A concrete reachable state: initialize two containers, allocate one,
release it (stop succeeding), then run one replacement spawn. -/
def c3WitnessState : PoolState :=
  runPool initState
    [Action.initPool [⟨true, true⟩, ⟨false, true⟩] (fun _ => true),
     Action.allocate "s1" ⟨true, true⟩,
     Action.release "s1" true,
     Action.spawnReplacement ⟨true, true⟩]

/-- Witness for C3: the invariant conclusions hold at the concrete
reachable state `c3WitnessState`. -/
theorem pool_ownership_invariant_witness :
    c3WitnessState.ready.Disjoint (activeVals c3WitnessState) ∧
    c3WitnessState.ready.Disjoint (stoppedIds c3WitnessState) ∧
    (activeVals c3WitnessState).Disjoint (stoppedIds c3WitnessState) ∧
    (activeVals c3WitnessState).Nodup ∧
    (activeKeys c3WitnessState).Nodup ∧
    (∀ sid1 sid2 cs1 cs2 c1 c2, sid1 ≠ sid2 →
      (allocateOp c3WitnessState sid1 cs1).1 = Except.ok c1 →
      (allocateOp ((allocateOp c3WitnessState sid1 cs1).2) sid2 cs2).1 =
        Except.ok c2 →
      c1 ≠ c2) :=
  pool_ownership_invariant c3WitnessState ⟨_, rfl⟩

end Hermes

namespace Hermes

/-- C4: when the ready queue is empty and the on-demand creation fails
(both Docker attempts raise), `allocate` raises an allocation error and
leaves the pool state unchanged — in particular `session_id` is never
inserted into the active map. -/
theorem allocate_ondemand_failure (s : PoolState) (sid : String) (cs : CreateSpec)
    (hready : s.ready = []) (hcs : cs.ok = false) :
    allocateOp s sid cs = (Except.error PoolErr.allocationFailed, s) ∧
    lookupActive (allocateOp s sid cs).2.active sid = lookupActive s.active sid := by
  have h1 : allocateOp s sid cs = (Except.error PoolErr.allocationFailed, s) := by
    simp [allocateOp, hready, hcs]
  exact ⟨h1, by rw [h1]⟩

/-- Witness for C4 at a fresh empty pool. -/
theorem allocate_ondemand_failure_witness :
    allocateOp initState "s1" ⟨false, false⟩ =
      (Except.error PoolErr.allocationFailed, initState) ∧
    lookupActive (allocateOp initState "s1" ⟨false, false⟩).2.active "s1" =
      lookupActive initState.active "s1" :=
  allocate_ondemand_failure initState "s1" ⟨false, false⟩ rfl rfl

/-- After erasing a key it can no longer be looked up. -/
lemma lookupActive_erase_self (m : List (String × CId)) (sid : String) :
    lookupActive (eraseActive m sid) sid = none := by
  rw [lookupActive_eq_none_iff]
  intro hmem
  simp only [eraseActive, List.mem_map] at hmem
  obtain ⟨p, hp, hfst⟩ := hmem
  rw [List.mem_filter] at hp
  have hne := hp.2
  simp only [ne_eq, decide_not, Bool.not_eq_true', decide_eq_false_iff_not] at hne
  exact hne hfst

/-- Characterization of the active map after `release`. -/
lemma releaseOp_active (s : PoolState) (sid : String) (ok : Bool) :
    (lookupActive s.active sid = none ∧ (releaseOp s sid ok).1 = s) ∨
    (releaseOp s sid ok).1.active = eraseActive s.active sid := by
  rcases hl : lookupActive s.active sid with _ | c
  · left
    exact ⟨rfl, by simp only [releaseOp, hl]⟩
  · right
    cases ok
    · simp only [releaseOp, hl]
      simp
    · simp only [releaseOp, hl]
      simp

/-- After any `release(sid)`, `sid` is no longer in the active map. -/
lemma release_lookup_after (s : PoolState) (sid : String) (ok : Bool) :
    lookupActive (releaseOp s sid ok).1.active sid = none := by
  rcases releaseOp_active s sid ok with h | h
  · rw [h.2]
    exact h.1
  · rw [h]
    exact lookupActive_erase_self _ _

/-- C9: releasing a session id that is not in the active map is a no-op
apart from a logged warning — the pool state is unchanged, no stop call
is performed and no stopped-list entry is appended (and `releaseOp` is
total, so nothing is raised); consequently a second release of an
already-released id is always such a no-op. -/
theorem release_unknown_session_noop (s : PoolState) (sid : String) (ok1 ok2 : Bool) :
    (lookupActive s.active sid = none → releaseOp s sid ok1 = (s, [])) ∧
    releaseOp (releaseOp s sid ok1).1 sid ok2 = ((releaseOp s sid ok1).1, []) := by
  constructor
  · intro h
    simp [releaseOp, h]
  · have h := release_lookup_after s sid ok1
    set X := (releaseOp s sid ok1).1 with hX
    simp only [releaseOp, h]

/-- A pool state with one active session holding container 0. -/
def exReleaseState : PoolState :=
  { ready := [], active := [("s1", 0)], stopped := [], nextId := 1, now := 0,
    shutdownFlag := false }

/-- Witness for C9: releasing the absent id "s2", twice. -/
theorem release_unknown_session_noop_witness :
    releaseOp exReleaseState "s2" true = (exReleaseState, []) ∧
    releaseOp (releaseOp exReleaseState "s2" true).1 "s2" false =
      ((releaseOp exReleaseState "s2" true).1, []) :=
  ⟨(release_unknown_session_noop exReleaseState "s2" true false).1
      (by simp [exReleaseState, lookupActive]),
   (release_unknown_session_noop exReleaseState "s2" true false).2⟩

/-- C1 as stated is refuted by the code: in `release`, when `container.stop`
raises, the stop was attempted (the returned attempt list is `[0]`) but
the container is NOT appended to the stopped list — the append sits inside
the `try`, after the stop call, so the failing container is dropped. -/
theorem release_failed_stop_not_archived :
    ¬ (∀ c ∈ (releaseOp exReleaseState "s1" false).2,
        ∃ t, (c, t) ∈ (releaseOp exReleaseState "s1" false).1.stopped) := by
  intro hcl
  have h0 : (0 : CId) ∈ (releaseOp exReleaseState "s1" false).2 := by
    simp [releaseOp, exReleaseState, lookupActive]
  obtain ⟨t, ht⟩ := hcl 0 h0
  simp [releaseOp, exReleaseState, lookupActive, eraseActive] at ht

/-- C1 amended: `release` on an active session attempts the stop of
exactly the owned container and `shutdown` attempts the stop of exactly
the active and ready containers; a container is appended (with a
timestamp) to the stopped list exactly when its stop call succeeds, and
on stop failure it is dropped (the failure is only logged); neither
operation raises (both are total, returning no error value). -/
theorem release_shutdown_stop_semantics (s : PoolState) (sid : String) (c : CId)
    (okStop : Bool) (f : CId → Bool)
    (h : lookupActive s.active sid = some c) :
    (releaseOp s sid okStop).2 = [c] ∧
    (okStop = true →
      (releaseOp s sid okStop).1.stopped = s.stopped ++ [(c, s.now)]) ∧
    (okStop = false → (releaseOp s sid okStop).1.stopped = s.stopped) ∧
    (shutdownOp s f).2 = activeVals s ++ s.ready ∧
    stoppedIds (shutdownOp s f).1 =
      stoppedIds s ++ (activeVals s).filter f ++ s.ready.filter f := by
  refine ⟨?_, ?_, ?_, ?_, ?_⟩
  · by_cases hst : okStop <;> simp [releaseOp, h, hst]
  · intro hst; simp [releaseOp, h, hst]
  · intro hst; simp [releaseOp, h, hst]
  · simp [shutdownOp, activeVals]
  · simp only [shutdownOp, stoppedIds, activeVals, cleanupStops_fst]

/-- Witness for the amended C1 at `exReleaseState` with a succeeding stop. -/
theorem release_shutdown_stop_semantics_witness :
    (releaseOp exReleaseState "s1" true).2 = [0] ∧
    ((true : Bool) = true →
      (releaseOp exReleaseState "s1" true).1.stopped =
        exReleaseState.stopped ++ [(0, exReleaseState.now)]) ∧
    ((true : Bool) = false →
      (releaseOp exReleaseState "s1" true).1.stopped = exReleaseState.stopped) ∧
    (shutdownOp exReleaseState (fun _ => true)).2 =
      activeVals exReleaseState ++ exReleaseState.ready ∧
    stoppedIds (shutdownOp exReleaseState (fun _ => true)).1 =
      stoppedIds exReleaseState ++
        (activeVals exReleaseState).filter (fun _ => true) ++
        exReleaseState.ready.filter (fun _ => true) :=
  release_shutdown_stop_semantics exReleaseState "s1" 0 true (fun _ => true)
    (by simp [exReleaseState, lookupActive])

/-- Creation outcomes for the C2 failing input: first creation succeeds,
second fails both attempts. -/
def exInitOutcomes : List CreateSpec := [⟨true, true⟩, ⟨false, false⟩]

/-- C2 evaluated at the failing input: `initialize` on a fresh pool with
target size 2, where the first creation succeeds and the second raises
twice.  The call fails with a pool-initialization error and the ready
queue is left empty — but the container created by the succeeding task
(id 0) is leaked: no stop is attempted on it and it ends up in none of
the pool's collections, contradicting both the claim and the code's own
comment that partially created containers are cleaned up. -/
theorem init_partial_failure_leaks_container :
    (initPoolOp initState exInitOutcomes (fun _ => true)).failed = true ∧
    (initPoolOp initState exInitOutcomes (fun _ => true)).state.ready = [] ∧
    (initPoolOp initState exInitOutcomes (fun _ => true)).created = [0] ∧
    (initPoolOp initState exInitOutcomes (fun _ => true)).stopAttempts = [] ∧
    0 ∉ poolIds (initPoolOp initState exInitOutcomes (fun _ => true)).state := by
  refine ⟨?_, ?_, ?_, ?_, ?_⟩ <;> decide

/-- Result of `_create_container` instrumented with the number of
create+start attempts performed and the backoff sleeps taken. -/
structure CreateResult where
  ok : Bool
  attempts : Nat
  backoffs : List Nat
deriving Repr, DecidableEq

/-- `ContainerPool._create_container` (pool.py lines 235-289): one
create+start attempt; on `DockerException` a `time.sleep(2)` backoff and
exactly one retry of create+start; a `DockerException` from the retry is
wrapped in `RuntimeError` and raised — there is no further retry. -/
def createContainer (cs : CreateSpec) : CreateResult :=
  if cs.firstOk then { ok := true, attempts := 1, backoffs := [] }
  else if cs.retryOk then { ok := true, attempts := 2, backoffs := [2] }
  else { ok := false, attempts := 2, backoffs := [2] }

/-- C5: every creation failure is retried exactly once, after a single
fixed 2-second backoff; a first-attempt success performs no retry; if the
retry also fails the failure surfaces as a hard error — as an allocation
error in the on-demand path of `allocate` and as an initialization
failure in `initialize` — and never more than two attempts are made. -/
theorem create_retry_once (cs : CreateSpec) :
    (createContainer cs).attempts ≤ 2 ∧
    (cs.firstOk = true →
      createContainer cs = { ok := true, attempts := 1, backoffs := [] }) ∧
    (cs.firstOk = false →
      (createContainer cs).attempts = 2 ∧ (createContainer cs).backoffs = [2]) ∧
    (cs.firstOk = false → cs.retryOk = false → (createContainer cs).ok = false) ∧
    (createContainer cs).ok = cs.ok ∧
    (∀ s sid, s.ready = [] → cs.ok = false →
      (allocateOp s sid cs).1 = Except.error PoolErr.allocationFailed) ∧
    (∀ s f outs, cs ∈ outs → cs.ok = false →
      (initPoolOp s outs f).failed = true) := by
  refine ⟨?_, ?_, ?_, ?_, ?_, ?_, ?_⟩
  · rcases cs with ⟨f1, r1⟩
    cases f1 <;> cases r1 <;> simp [createContainer]
  · intro h1
    simp [createContainer, h1]
  · intro h1
    cases hr : cs.retryOk <;> simp [createContainer, h1, hr]
  · intro h1 h2
    simp [createContainer, h1, h2]
  · rcases cs with ⟨f1, r1⟩
    cases f1 <;> cases r1 <;> simp [createContainer, CreateSpec.ok]
  · intro s sid hready hok
    simp [allocateOp, hready, hok]
  · intro s f outs hmem hok
    have hall : ¬ outs.all CreateSpec.ok = true := by
      rw [List.all_eq_true]
      intro hforall
      have hx := hforall cs hmem
      rw [hok] at hx
      exact Bool.false_ne_true hx
    simp [initPoolOp, hall]

/-- Witness for C5: both attempts fail — two attempts, one 2-second
backoff, and the failure surfaces in `allocate` and `initialize`. -/
theorem create_retry_once_witness :
    (createContainer ⟨false, false⟩).attempts = 2 ∧
    (createContainer ⟨false, false⟩).backoffs = [2] ∧
    (createContainer ⟨false, false⟩).ok = false ∧
    (allocateOp initState "s1" ⟨false, false⟩).1 =
      Except.error PoolErr.allocationFailed ∧
    (initPoolOp initState [⟨false, false⟩] (fun _ => true)).failed = true := by
  have h := create_retry_once ⟨false, false⟩
  exact ⟨(h.2.2.1 rfl).1, (h.2.2.1 rfl).2, h.2.2.2.1 rfl rfl,
    h.2.2.2.2.2.1 initState "s1" rfl rfl,
    h.2.2.2.2.2.2 initState (fun _ => true) [⟨false, false⟩]
      (List.mem_singleton_self _) rfl⟩

end Hermes

namespace Hermes

/-! ### SessionRecorder (recorder.py)

The transcript file is line-delimited JSON written with `json.dumps` and
read back with `json.loads`; we model the file as the list of JSON values
of its lines.  Byte payloads are decoded with
`data.decode("utf-8", errors="replace")`, which is total (malformed bytes
become replacement characters, never an exception), so the model takes
the decoded text as the payload. -/

/-- JSON values as produced by `json.dumps` and read by `json.loads`
(ints and floats are distinct value kinds in Python). -/
inductive Json where
  | jint (n : Int)
  | jnum (q : ℚ)
  | jstr (s : String)
  | jarr (l : List Json)
  | jobj (l : List (String × Json))
deriving Repr

/-- The recording configuration consumed by `SessionRecorder`. -/
structure RecordingConfig where
  enabled : Bool
  outputDir : String
deriving Repr, DecidableEq

/-- Python `round(x, 6)` used for the elapsed timestamp (microsecond
precision).  Modelled over the rationals with `round` (half-up); Python's
float round is half-to-even, which differs only on exact ties and is
likewise monotone — the only property the claims use. -/
def round6 (q : ℚ) : ℚ := (round (q * 1000000) : ℚ) / 1000000

/-- One transcript event line `[elapsed, type, data]`. -/
structure CastEvent where
  elapsed : ℚ
  ty : String
  data : String
deriving Repr, DecidableEq

/-- The asciicast v2 header fields written by `SessionRecorder.start`;
`env = []` models the absent optional metadata map (Python's falsy `{}`). -/
structure CastHeader where
  width : Int
  height : Int
  timestamp : Int
  env : List (String × String)
deriving Repr, DecidableEq

/-- The header line: `{version: 2, width, height, timestamp}` plus an
`env` object exactly when the metadata map is non-empty. -/
def headerJson (h : CastHeader) : Json :=
  Json.jobj ([("version", Json.jint 2), ("width", Json.jint h.width),
    ("height", Json.jint h.height), ("timestamp", Json.jint h.timestamp)] ++
    (if h.env = [] then []
     else [("env", Json.jobj (h.env.map (fun p => (p.1, Json.jstr p.2))))]))

/-- An event line: the 3-element array `[elapsed, type, data]`. -/
def eventJson (e : CastEvent) : Json :=
  Json.jarr [Json.jnum e.elapsed, Json.jstr e.ty, Json.jstr e.data]

/-- State of one `SessionRecorder`.  `file` is the open transcript file
handle together with the lines written so far (`none` = no open handle,
i.e. inactive); `events` is the same event data in structured form (the
lines after the header, in order). -/
structure RecState where
  config : RecordingConfig
  sessionId : String
  width : Int
  height : Int
  metadata : List (String × String)
  file : Option (List Json)
  startTime : ℚ
  eventCount : Nat
  events : List CastEvent
deriving Repr

/-- `SessionRecorder.__init__`. -/
def mkRecorder (cfg : RecordingConfig) (sid : String) (w h : Int)
    (md : List (String × String)) : RecState :=
  { config := cfg, sessionId := sid, width := w, height := h, metadata := md,
    file := none, startTime := 0, eventCount := 0, events := [] }

/-- The `active` property: true exactly when the file handle is open. -/
def recActive (s : RecState) : Bool := s.file.isSome

/-- `SessionRecorder.start` (recorder.py lines 45-70): no-op when
recording is disabled; otherwise opens (truncating) the `.cast` file,
records the monotonic reading `tMono` as the start reference, writes the
header line with the wall-clock epoch `tWall`, and flushes.  Any failure
in that sequence (`ioOk = false`) is caught and logged and leaves
`_file = None` (the recorder inactive). -/
def startOp (s : RecState) (tMono : ℚ) (tWall : Int) (ioOk : Bool) : RecState :=
  if s.config.enabled = false then s
  else if ioOk then
    { s with
      file := some [headerJson ⟨s.width, s.height, tWall, s.metadata⟩],
      startTime := tMono, events := [] }
  else { s with file := none }

/-- `SessionRecorder._record_event` (recorder.py lines 134-154) and the
same-shaped body of `record_resize`: no-op when no file is open;
otherwise computes `elapsed = round(tMono - startTime, 6)`, appends the
line `[elapsed, ty, text]`, flushes, and increments the event counter.  A
write failure (`ioOk = false`) is caught and logged: nothing is appended
and the recorder stays active. -/
def recordEventOp (s : RecState) (ty text : String) (tMono : ℚ) (ioOk : Bool) :
    RecState :=
  match s.file with
  | none => s
  | some lines =>
      if ioOk then
        { s with
          file := some (lines ++ [eventJson ⟨round6 (tMono - s.startTime), ty, text⟩]),
          events := s.events ++ [⟨round6 (tMono - s.startTime), ty, text⟩],
          eventCount := s.eventCount + 1 }
      else s

/-- `SessionRecorder.record_output`: event type `"o"`. -/
def recordOutput (s : RecState) (text : String) (t : ℚ) (ok : Bool) : RecState :=
  recordEventOp s "o" text t ok

/-- `SessionRecorder.record_input`: event type `"i"`. -/
def recordInput (s : RecState) (text : String) (t : ℚ) (ok : Bool) : RecState :=
  recordEventOp s "i" text t ok

/-- `SessionRecorder.record_resize` (recorder.py lines 80-98): event type
`"r"` with the literal payload `"{width}x{height}"`. -/
def recordResize (s : RecState) (w h : Int) (t : ℚ) (ok : Bool) : RecState :=
  recordEventOp s "r" (toString w ++ "x" ++ toString h) t ok

/-- `SessionRecorder.stop`: closes the handle if open (idempotent). -/
def stopOp (s : RecState) : RecState := { s with file := none }

/-- `SessionRecorder.write_metadata` (recorder.py lines 119-132): no-op
when recording is disabled; otherwise writes the metadata map as the
`<session_id>.json` sidecar — gated only by the config flag, not by the
open-file state.  A write failure (`ioOk = false`) is caught and logged.
The result is the sidecar document written, if any. -/
def writeMetadataOp (s : RecState) (ioOk : Bool) :
    Option (String × List (String × String)) :=
  if s.config.enabled = false then none
  else if ioOk then
    some (s.config.outputDir ++ "/" ++ s.sessionId ++ ".json", s.metadata)
  else none

/-- One recorder call between `start` and `stop`, carrying the monotonic
clock reading at the call and the outcome of the file write. -/
inductive RecOp where
  | output (text : String) (t : ℚ) (ok : Bool)
  | input (text : String) (t : ℚ) (ok : Bool)
  | resize (w h : Int) (t : ℚ) (ok : Bool)

/-- Apply one recorder call. -/
def applyRecOp (s : RecState) : RecOp → RecState
  | RecOp.output text t ok => recordOutput s text t ok
  | RecOp.input text t ok => recordInput s text t ok
  | RecOp.resize w h t ok => recordResize s w h t ok

/-- Run a sequence of recorder calls. -/
def runRec (s : RecState) : List RecOp → RecState
  | [] => s
  | op :: rest => runRec (applyRecOp s op) rest

/-- The monotonic clock reading of a call. -/
def RecOp.time : RecOp → ℚ
  | RecOp.output _ t _ => t
  | RecOp.input _ t _ => t
  | RecOp.resize _ _ t _ => t

/-- Whether the call's file write succeeds. -/
def RecOp.okFlag : RecOp → Bool
  | RecOp.output _ _ ok => ok
  | RecOp.input _ _ ok => ok
  | RecOp.resize _ _ _ ok => ok

/-- Number of calls whose write succeeds (= events actually written). -/
def countOk (ops : List RecOp) : Nat := (ops.filter RecOp.okFlag).length

/-- A recorder as it stands right after a successful `start` with
recording enabled. -/
def startedRec (cfg : RecordingConfig) (sid : String) (w h : Int)
    (md : List (String × String)) (t0 : ℚ) (tw : Int) : RecState :=
  startOp (mkRecorder cfg sid w h md) t0 tw true

end Hermes

namespace Hermes

/-- JSON object key lookup (as `json.loads` consumers do). -/
def jlookup : List (String × Json) → String → Option Json
  | [], _ => none
  | p :: rest, k => if p.1 = k then some p.2 else jlookup rest k

/-- Parse one `env` entry (string values). -/
def parseEnvEntry : String × Json → Option (String × String)
  | (k, Json.jstr v) => some (k, v)
  | _ => none

/-- Parse the optional `env` object of the header. -/
def parseEnv : Json → Option (List (String × String))
  | Json.jobj l => l.mapM parseEnvEntry
  | _ => none

/-- Parse the header line: an object with `version = 2` and integer
`width`, `height`, `timestamp`, plus an optional `env` object. -/
def parseHeader : Json → Option CastHeader
  | Json.jobj fields =>
      match jlookup fields "version", jlookup fields "width",
            jlookup fields "height", jlookup fields "timestamp" with
      | some (Json.jint 2), some (Json.jint w), some (Json.jint h),
          some (Json.jint ts) =>
          match jlookup fields "env" with
          | none => some ⟨w, h, ts, []⟩
          | some e => (parseEnv e).map (fun env => ⟨w, h, ts, env⟩)
      | _, _, _, _ => none
  | _ => none

/-- Parse one event line: a 3-element array `[elapsed, type, data]` with
type `"o"`, `"i"` or `"r"`. -/
def parseEvent : Json → Option CastEvent
  | Json.jarr [Json.jnum e, Json.jstr ty, Json.jstr d] =>
      if ty = "o" ∨ ty = "i" ∨ ty = "r" then some ⟨e, ty, d⟩ else none
  | _ => none

/-- Parse a whole transcript file: header line then event lines. -/
def parseTranscript (lines : List Json) : Option (CastHeader × List CastEvent) :=
  match lines with
  | [] => none
  | h :: rest =>
      match parseHeader h, rest.mapM parseEvent with
      | some hdr, some evs => some (hdr, evs)
      | _, _ => none

/-- Environment map serialization round-trips. -/
lemma parseEnv_roundtrip (env : List (String × String)) :
    parseEnv (Json.jobj (env.map (fun p => (p.1, Json.jstr p.2)))) = some env := by
  simp only [parseEnv]
  induction env with
  | nil => rfl
  | cons p rest ih =>
      simp only [List.map_cons, List.mapM_cons, parseEnvEntry, ih]
      rfl

/-- The header line written by `start` parses back to the same fields. -/
lemma parseHeader_headerJson (h : CastHeader) :
    parseHeader (headerJson h) = some h := by
  obtain ⟨w, ht, ts, env⟩ := h
  by_cases henv : env = []
  · subst henv
    simp [headerJson, parseHeader, jlookup]
  · simp [headerJson, henv, parseHeader, jlookup, parseEnv_roundtrip]

/-- An event line written by the recorder parses back to the same event. -/
lemma parseEvent_eventJson (e : CastEvent)
    (hty : e.ty = "o" ∨ e.ty = "i" ∨ e.ty = "r") :
    parseEvent (eventJson e) = some e := by
  simp [eventJson, parseEvent, hty]

/-- A list of recorder-written event lines parses back to the events. -/
lemma mapM_parseEvent (evs : List CastEvent)
    (h : ∀ e ∈ evs, e.ty = "o" ∨ e.ty = "i" ∨ e.ty = "r") :
    (evs.map eventJson).mapM parseEvent = some evs := by
  induction evs with
  | nil => rfl
  | cons e rest ih =>
      simp only [List.map_cons, List.mapM_cons,
        parseEvent_eventJson e (h e (List.mem_cons_self e rest)),
        ih (fun x hx => h x (List.mem_cons_of_mem _ hx))]
      rfl

/-- The event type a call writes. -/
def opTy : RecOp → String
  | RecOp.output _ _ _ => "o"
  | RecOp.input _ _ _ => "i"
  | RecOp.resize _ _ _ _ => "r"

/-- The payload text a call writes. -/
def opText : RecOp → String
  | RecOp.output text _ _ => text
  | RecOp.input text _ _ => text
  | RecOp.resize w h _ _ => toString w ++ "x" ++ toString h

/-- Effect of one event write on the file/event shape. -/
lemma recordEventOp_shape (s : RecState) (ty text : String) (t : ℚ) (ok : Bool)
    (hd : Json) (h1 : s.file = some (hd :: s.events.map eventJson)) :
    (recordEventOp s ty text t ok).file =
      some (hd :: (recordEventOp s ty text t ok).events.map eventJson) ∧
    (recordEventOp s ty text t ok).events =
      (if ok then s.events ++ [⟨round6 (t - s.startTime), ty, text⟩]
       else s.events) ∧
    (recordEventOp s ty text t ok).startTime = s.startTime := by
  cases ok
  · simp [recordEventOp, h1]
  · simp [recordEventOp, h1]

/-- Run-level shape invariant: starting from an open file holding the
header line plus the already-written event lines, any sequence of record
calls keeps the file equal to the header line plus the event lines, with
only valid event types, one new event per successful write, and an
unchanged start reference. -/
lemma runRec_shape (ops : List RecOp) :
    ∀ (s : RecState) (hd : Json),
      s.file = some (hd :: s.events.map eventJson) →
      (∀ e ∈ s.events, e.ty = "o" ∨ e.ty = "i" ∨ e.ty = "r") →
      (runRec s ops).file = some (hd :: (runRec s ops).events.map eventJson) ∧
      (∀ e ∈ (runRec s ops).events, e.ty = "o" ∨ e.ty = "i" ∨ e.ty = "r") ∧
      (runRec s ops).events.length = s.events.length + countOk ops ∧
      (runRec s ops).startTime = s.startTime := by
  induction ops with
  | nil =>
      intro s hd h1 h2
      exact ⟨h1, h2, by simp [runRec, countOk], rfl⟩
  | cons op rest ih =>
      intro s hd h1 h2
      have hstep :
          (applyRecOp s op).file =
            some (hd :: (applyRecOp s op).events.map eventJson) ∧
          (applyRecOp s op).events =
            (if op.okFlag then s.events ++
              [⟨round6 (op.time - s.startTime), opTy op, opText op⟩]
             else s.events) ∧
          (applyRecOp s op).startTime = s.startTime := by
        cases op with
        | output text t ok =>
            exact recordEventOp_shape s "o" text t ok hd h1
        | input text t ok =>
            exact recordEventOp_shape s "i" text t ok hd h1
        | resize w h t ok =>
            exact recordEventOp_shape s "r" _ t ok hd h1
      obtain ⟨hf, he, hst⟩ := hstep
      have h2' : ∀ e ∈ (applyRecOp s op).events,
          e.ty = "o" ∨ e.ty = "i" ∨ e.ty = "r" := by
        rw [he]
        cases hok : op.okFlag
        · simpa using h2
        · simp only [if_pos]
          intro e hmem
          rcases List.mem_append.1 hmem with hmem | hmem
          · exact h2 e hmem
          · rw [List.mem_singleton] at hmem
            subst hmem
            cases op <;> simp [opTy]
      have hrun := ih (applyRecOp s op) hd hf h2'
      refine ⟨hrun.1, hrun.2.1, ?_, hrun.2.2.2.trans hst⟩
      rw [show runRec s (op :: rest) = runRec (applyRecOp s op) rest from rfl,
        hrun.2.2.1, he]
      cases hok : op.okFlag <;>
        simp [countOk, List.filter_cons, hok] <;> omega

end Hermes

namespace Hermes

/-- `round(·, 6)` is monotone (any rounding to fixed precision is). -/
lemma round6_mono {q r : ℚ} (h : q ≤ r) : round6 q ≤ round6 r := by
  unfold round6
  have hmul : q * 1000000 ≤ r * 1000000 :=
    mul_le_mul_of_nonneg_right h (by norm_num)
  have h1 : round (q * 1000000) ≤ round (r * 1000000) := by
    rw [round_eq, round_eq]
    exact Int.floor_mono (by linarith)
  have h2 : ((round (q * 1000000) : ℤ) : ℚ) ≤ ((round (r * 1000000) : ℤ) : ℚ) := by
    exact_mod_cast h1
  exact (div_le_div_right (by norm_num)).2 h2

/-- Each call appends at most one event, whose elapsed value is the
rounded difference of the call's clock reading and the start reference,
and never changes the start reference. -/
lemma applyRecOp_elapsed (s : RecState) (op : RecOp) :
    (applyRecOp s op).startTime = s.startTime ∧
    ((applyRecOp s op).events = s.events ∨
      (applyRecOp s op).events =
        s.events ++ [⟨round6 (op.time - s.startTime), opTy op, opText op⟩]) := by
  cases op with
  | output text t ok =>
      cases hf : s.file with
      | none => simp [applyRecOp, recordOutput, recordEventOp, hf]
      | some lines =>
          cases ok
          · simp [applyRecOp, recordOutput, recordEventOp, hf]
          · simp [applyRecOp, recordOutput, recordEventOp, hf, RecOp.time, opTy, opText]
  | input text t ok =>
      cases hf : s.file with
      | none => simp [applyRecOp, recordInput, recordEventOp, hf]
      | some lines =>
          cases ok
          · simp [applyRecOp, recordInput, recordEventOp, hf]
          · simp [applyRecOp, recordInput, recordEventOp, hf, RecOp.time, opTy, opText]
  | resize w h t ok =>
      cases hf : s.file with
      | none => simp [applyRecOp, recordResize, recordEventOp, hf]
      | some lines =>
          cases ok
          · simp [applyRecOp, recordResize, recordEventOp, hf]
          · simp [applyRecOp, recordResize, recordEventOp, hf, RecOp.time, opTy, opText]

/-- Monotonicity induction: when the clock readings of the pending calls
form a non-decreasing chain above the reading `tPrev`, and the elapsed
values recorded so far are a non-decreasing chain bounded by the rounded
time to `tPrev`, the elapsed values stay a non-decreasing chain. -/
lemma runRec_elapsed_chain (ops : List RecOp) :
    ∀ (s : RecState) (tPrev : ℚ),
      List.Chain' (· ≤ ·) (tPrev :: ops.map RecOp.time) →
      List.Chain' (· ≤ ·) (s.events.map CastEvent.elapsed) →
      (∀ e ∈ s.events, e.elapsed ≤ round6 (tPrev - s.startTime)) →
      List.Chain' (· ≤ ·) ((runRec s ops).events.map CastEvent.elapsed) := by
  induction ops with
  | nil =>
      intro s tPrev _ h2 _
      exact h2
  | cons op rest ih =>
      intro s tPrev h1 h2 h3
      rw [List.map_cons, List.chain'_cons'] at h1
      have hts : tPrev ≤ op.time := by
        have := h1.1
        simp only [List.head?_cons, Option.mem_def, Option.some.injEq] at this
        exact this op.time rfl
      obtain ⟨hst, hev⟩ := applyRecOp_elapsed s op
      have hb : ∀ e ∈ s.events, e.elapsed ≤ round6 (op.time - s.startTime) :=
        fun e he => le_trans (h3 e he) (round6_mono (by linarith))
      rcases hev with hsame | happ
      · refine ih (applyRecOp s op) op.time h1.2 ?_ ?_
        · rw [hsame]
          exact h2
        · rw [hsame, hst]
          exact hb
      · refine ih (applyRecOp s op) op.time h1.2 ?_ ?_
        · rw [happ, List.map_append]
          rw [List.chain'_append]
          refine ⟨h2, List.chain'_singleton _, ?_⟩
          intro x hx y hy
          simp only [List.map_cons, List.map_nil, List.head?_cons,
            Option.mem_def, Option.some.injEq] at hy
          have hxm : x ∈ s.events.map CastEvent.elapsed :=
            List.mem_of_getLast?_eq_some hx
          obtain ⟨e, hem, hex⟩ := List.mem_map.1 hxm
          rw [← hex, ← hy]
          exact hb e hem
        · rw [happ, hst]
          intro e he
          rcases List.mem_append.1 he with he | he
          · exact hb e he
          · rw [List.mem_singleton] at he
            subst he
            exact le_refl _

/-- After `start`, no events have been recorded yet. -/
lemma startedRec_events (cfg : RecordingConfig) (sid : String) (w h : Int)
    (md : List (String × String)) (t0 : ℚ) (tw : Int) :
    (startedRec cfg sid w h md t0 tw).events = [] ∧
    (startedRec cfg sid w h md t0 tw).startTime =
      (if cfg.enabled then t0 else 0) := by
  cases hen : cfg.enabled <;> simp [startedRec, startOp, mkRecorder, hen]

/-- C6: for every transcript produced by one recorder — any sequence of
record_output, record_input and record_resize calls after `start` — when
the clock readings are non-decreasing (the source is the monotonic
clock), the recorded elapsed values are non-decreasing:
`events[i].elapsed >= events[i-1].elapsed`. -/
theorem transcript_monotone (cfg : RecordingConfig) (sid : String) (w h : Int)
    (md : List (String × String)) (t0 : ℚ) (tw : Int) (ops : List RecOp)
    (hchain : List.Chain' (· ≤ ·) (t0 :: ops.map RecOp.time)) :
    List.Chain' (· ≤ ·)
      ((runRec (startedRec cfg sid w h md t0 tw) ops).events.map
        CastEvent.elapsed) := by
  obtain ⟨hev, _⟩ := startedRec_events cfg sid w h md t0 tw
  refine runRec_elapsed_chain ops _ t0 hchain ?_ ?_
  · rw [hev]
    exact List.chain'_nil
  · rw [hev]
    intro e he
    exact absurd he (List.not_mem_nil e)

/-- Witness for C6: recording enabled, three calls at clock readings
0.5, 1.25 and 2 after a start at 0. -/
theorem transcript_monotone_witness :
    List.Chain' (· ≤ ·)
      ((runRec (startedRec ⟨true, "recordings"⟩ "sess" 80 24 [] 0 1700000000)
        [RecOp.output "hi" (1/2) true, RecOp.input "cmd" (5/4) true,
         RecOp.resize 100 30 2 true]).events.map CastEvent.elapsed) :=
  transcript_monotone ⟨true, "recordings"⟩ "sess" 80 24 [] 0 1700000000
    [RecOp.output "hi" (1/2) true, RecOp.input "cmd" (5/4) true,
     RecOp.resize 100 30 2 true]
    (by simp [RecOp.time]; norm_num)

end Hermes

namespace Hermes

/-- C7: writing a header plus events with the recorder and parsing the
transcript back yields exactly the written events (one per successful
write) and the original header fields unchanged; line 1 is the JSON
header object (version 2, width, height, timestamp, optional env) and
every further line is the 3-element array `[elapsed, "o"|"i"|"r", data]`;
the payload written by `record_resize(w, h)` is the literal string
`w ++ "x" ++ h`. -/
theorem transcript_round_trip (cfg : RecordingConfig) (sid : String) (w h : Int)
    (md : List (String × String)) (t0 : ℚ) (tw : Int) (ops : List RecOp)
    (hen : cfg.enabled = true) :
    parseTranscript ((runRec (startedRec cfg sid w h md t0 tw) ops).file.getD []) =
      some (⟨w, h, tw, md⟩, (runRec (startedRec cfg sid w h md t0 tw) ops).events) ∧
    (runRec (startedRec cfg sid w h md t0 tw) ops).file.getD [] =
      headerJson ⟨w, h, tw, md⟩ ::
        ((runRec (startedRec cfg sid w h md t0 tw) ops).events).map eventJson ∧
    (runRec (startedRec cfg sid w h md t0 tw) ops).events.length = countOk ops ∧
    (∀ (s2 : RecState) (rw2 rh2 : Int) (t : ℚ) (lines : List Json),
      s2.file = some lines →
      (recordResize s2 rw2 rh2 t true).events =
        s2.events ++ [⟨round6 (t - s2.startTime), "r",
          toString rw2 ++ "x" ++ toString rh2⟩]) := by
  have hstart : (startedRec cfg sid w h md t0 tw).file =
      some (headerJson ⟨w, h, tw, md⟩ ::
        (startedRec cfg sid w h md t0 tw).events.map eventJson) := by
    simp [startedRec, startOp, mkRecorder, hen]
  have hev0 : (startedRec cfg sid w h md t0 tw).events = [] :=
    (startedRec_events cfg sid w h md t0 tw).1
  have hshape := runRec_shape ops (startedRec cfg sid w h md t0 tw)
    (headerJson ⟨w, h, tw, md⟩) hstart
    (by rw [hev0]; intro e he; exact absurd he (List.not_mem_nil e))
  obtain ⟨hfile, hty, hlen, _⟩ := hshape
  refine ⟨?_, ?_, ?_, ?_⟩
  · rw [hfile]
    simp only [Option.getD_some, parseTranscript, parseHeader_headerJson,
      mapM_parseEvent _ hty]
  · rw [hfile]
    rfl
  · rw [hlen, hev0]
    simp
  · intro s2 rw2 rh2 t lines hlines
    simp [recordResize, recordEventOp, hlines]

/-- Witness for C7 at the spec's scenario: record_output, record_input,
record_resize(100, 30) after a successful start. -/
theorem transcript_round_trip_witness :
    parseTranscript ((runRec (startedRec ⟨true, "recordings"⟩ "sess" 80 24
        [("user", "bob")] 0 1700000000)
        [RecOp.output "hi" 1 true, RecOp.input "cmd" 2 true,
         RecOp.resize 100 30 3 true]).file.getD []) =
      some (⟨80, 24, 1700000000, [("user", "bob")]⟩,
        (runRec (startedRec ⟨true, "recordings"⟩ "sess" 80 24
          [("user", "bob")] 0 1700000000)
          [RecOp.output "hi" 1 true, RecOp.input "cmd" 2 true,
           RecOp.resize 100 30 3 true]).events) ∧
    (runRec (startedRec ⟨true, "recordings"⟩ "sess" 80 24
        [("user", "bob")] 0 1700000000)
        [RecOp.output "hi" 1 true, RecOp.input "cmd" 2 true,
         RecOp.resize 100 30 3 true]).file.getD [] =
      headerJson ⟨80, 24, 1700000000, [("user", "bob")]⟩ ::
        ((runRec (startedRec ⟨true, "recordings"⟩ "sess" 80 24
          [("user", "bob")] 0 1700000000)
          [RecOp.output "hi" 1 true, RecOp.input "cmd" 2 true,
           RecOp.resize 100 30 3 true]).events).map eventJson ∧
    (runRec (startedRec ⟨true, "recordings"⟩ "sess" 80 24
        [("user", "bob")] 0 1700000000)
        [RecOp.output "hi" 1 true, RecOp.input "cmd" 2 true,
         RecOp.resize 100 30 3 true]).events.length =
      countOk [RecOp.output "hi" 1 true, RecOp.input "cmd" 2 true,
        RecOp.resize 100 30 3 true] ∧
    (∀ (s2 : RecState) (rw2 rh2 : Int) (t : ℚ) (lines : List Json),
      s2.file = some lines →
      (recordResize s2 rw2 rh2 t true).events =
        s2.events ++ [⟨round6 (t - s2.startTime), "r",
          toString rw2 ++ "x" ++ toString rh2⟩]) :=
  transcript_round_trip ⟨true, "recordings"⟩ "sess" 80 24 [("user", "bob")]
    0 1700000000
    [RecOp.output "hi" 1 true, RecOp.input "cmd" 2 true,
     RecOp.resize 100 30 3 true] rfl

/-- C10: `write_metadata` is gated only by the recording-enabled flag and
not by the recorder's active state: on a recorder whose `start` was never
called it writes the sidecar whenever recording is enabled (and the write
succeeds); a recorder whose `start` failed (and is hence inactive)
behaves identically; and with recording disabled nothing is ever
written, whatever the state. -/
theorem write_metadata_gating (cfg : RecordingConfig) (sid : String) (w h : Int)
    (md : List (String × String)) (t0 : ℚ) (tw : Int) (ioOk : Bool) :
    writeMetadataOp (mkRecorder cfg sid w h md) ioOk =
      (if cfg.enabled && ioOk then
        some (cfg.outputDir ++ "/" ++ sid ++ ".json", md) else none) ∧
    writeMetadataOp (startOp (mkRecorder cfg sid w h md) t0 tw false) ioOk =
      writeMetadataOp (mkRecorder cfg sid w h md) ioOk ∧
    recActive (startOp (mkRecorder cfg sid w h md) t0 tw false) = false ∧
    (∀ s : RecState, s.config.enabled = false → writeMetadataOp s ioOk = none) := by
  refine ⟨?_, ?_, ?_, ?_⟩
  · cases hcen : cfg.enabled <;> cases ioOk <;>
      simp [writeMetadataOp, mkRecorder, hcen]
  · cases hcen : cfg.enabled <;>
      simp [writeMetadataOp, startOp, mkRecorder, hcen]
  · cases hcen : cfg.enabled <;>
      simp [recActive, startOp, mkRecorder, hcen]
  · intro s hs
    simp [writeMetadataOp, hs]

/-- Witness for C10: enabled recorder with a failed start still writes
the sidecar; same facts instantiated. -/
theorem write_metadata_gating_witness :
    writeMetadataOp (mkRecorder ⟨true, "recordings"⟩ "sess" 80 24
        [("user", "bob")]) true =
      (if (true : Bool) && true then
        some ("recordings" ++ "/" ++ "sess" ++ ".json", [("user", "bob")])
       else none) ∧
    writeMetadataOp (startOp (mkRecorder ⟨true, "recordings"⟩ "sess" 80 24
        [("user", "bob")]) 0 1700000000 false) true =
      writeMetadataOp (mkRecorder ⟨true, "recordings"⟩ "sess" 80 24
        [("user", "bob")]) true ∧
    recActive (startOp (mkRecorder ⟨true, "recordings"⟩ "sess" 80 24
        [("user", "bob")]) 0 1700000000 false) = false ∧
    (∀ s : RecState, s.config.enabled = false →
      writeMetadataOp s true = none) :=
  write_metadata_gating ⟨true, "recordings"⟩ "sess" 80 24 [("user", "bob")]
    0 1700000000 true

end Hermes

namespace Hermes

/-! ### ContainerProxy (proxy.py)

The two streaming loops `_ssh_to_container` (lines 126-170) and
`_container_to_ssh` (lines 172-217) are modelled as functions over a
script: the finite sequence of read results the stream delivers before
it terminally closes or errors.  Every exception branch of the Python
code (`except ConnectionResetError`, `except BrokenPipeError`,
`except Exception`) is a constructor; the `finally` block that runs
`self._shutdown_event.set()` on every exit path — including cancellation
by `stop()` — is the `setEvent` applied in every result.  Byte chunks are
carried as strings (their content is never inspected by the loops). -/

/-- A terminal read result ending a loop: empty read (EOF), connection
reset, broken pipe, or any other exception. -/
inductive TerminalRead where
  | eof
  | reset
  | brokenPipe
  | err
deriving Repr, DecidableEq

/-- An exception raised by a stream write (or the sendall retry). -/
inductive StreamErr where
  | reset
  | brokenPipe
  | err
deriving Repr, DecidableEq

/-- Outcome of `loop.sock_sendall` on one chunk in `_ssh_to_container`:
success; `BlockingIOError` followed by the one retry (which itself may
raise); or an exception. -/
inductive WriteOutcome where
  | ok
  | wouldBlockThen (retry : Option StreamErr)
  | fail (e : StreamErr)
deriving Repr, DecidableEq

/-- One `loop.sock_recv` result in `_container_to_ssh`: a chunk (with the
outcome of the following `stdout.write` + `drain`, `none` = success), or
`BlockingIOError` (sleep briefly and retry the read). -/
inductive SockRead where
  | data (chunk : String) (drain : Option StreamErr)
  | wouldBlock
deriving Repr, DecidableEq

/-- How a loop ended: clean EOF break, or one of the caught exception
branches (all logged, none propagating). -/
inductive LoopExit where
  | eofClean
  | caughtReset
  | caughtBrokenPipe
  | caughtErr
deriving Repr, DecidableEq

/-- `asyncio.Event.set`: after the call the event is set whether or not
it already was — signalling an already-set event has no further effect. -/
def setEvent (_e : Bool) : Bool := true

/-- `ContainerProxy.wait_completion` (proxy.py lines 239-246):
`await self._shutdown_event.wait()` returns exactly when the shared
event is set. -/
def waitCompletionReturns (e : Bool) : Prop := e = true

/-- Result of one streaming loop run: how it exited, the shared event
after its `finally` block, the payloads handed to the recorder, and the
chunks forwarded. -/
structure LoopResult where
  exit : LoopExit
  eventSet : Bool
  recorded : List String
  written : List String
deriving Repr, DecidableEq

/-- Exit classification of a terminal read. -/
def exitOfRead : TerminalRead → LoopExit
  | TerminalRead.eof => LoopExit.eofClean
  | TerminalRead.reset => LoopExit.caughtReset
  | TerminalRead.brokenPipe => LoopExit.caughtBrokenPipe
  | TerminalRead.err => LoopExit.caughtErr

/-- Exit classification of a write exception (caught by the same
`except` clauses). -/
def exitOfErr : StreamErr → LoopExit
  | StreamErr.reset => LoopExit.caughtReset
  | StreamErr.brokenPipe => LoopExit.caughtBrokenPipe
  | StreamErr.err => LoopExit.caughtErr

/-- `ContainerProxy._ssh_to_container`: read a chunk from the session's
stdin (empty chunk = remote closed input, break); hand it to the recorder
when one is attached; `sock_sendall` it to the exec socket, retrying once
after a `BlockingIOError`; exceptions end the loop through the matching
`except` branch.  The `finally` block sets the shared completion event on
every path. -/
def runSshToContainer (ra : Bool) :
    List (String × WriteOutcome) → TerminalRead → Bool → LoopResult
  | [], last, ev =>
      { exit := exitOfRead last, eventSet := setEvent ev,
        recorded := [], written := [] }
  | (chunk, w) :: rest, last, ev =>
      if chunk = "" then
        { exit := LoopExit.eofClean, eventSet := setEvent ev,
          recorded := [], written := [] }
      else
        match w with
        | WriteOutcome.ok =>
            let r := runSshToContainer ra rest last ev
            { r with recorded := (if ra then [chunk] else []) ++ r.recorded,
                     written := chunk :: r.written }
        | WriteOutcome.wouldBlockThen none =>
            let r := runSshToContainer ra rest last ev
            { r with recorded := (if ra then [chunk] else []) ++ r.recorded,
                     written := chunk :: r.written }
        | WriteOutcome.wouldBlockThen (some e) =>
            { exit := exitOfErr e, eventSet := setEvent ev,
              recorded := if ra then [chunk] else [], written := [] }
        | WriteOutcome.fail e =>
            { exit := exitOfErr e, eventSet := setEvent ev,
              recorded := if ra then [chunk] else [], written := [] }

/-- `ContainerProxy._container_to_ssh`: read a chunk from the exec socket
(`BlockingIOError` = no data, sleep briefly and retry; empty chunk = exec
ended, break); hand it to the recorder when attached; write it to the
session's stdout and drain; exceptions end the loop through the matching
`except` branch.  The `finally` block sets the shared completion event on
every path. -/
def runContainerToSsh (ra : Bool) :
    List SockRead → TerminalRead → Bool → LoopResult
  | [], last, ev =>
      { exit := exitOfRead last, eventSet := setEvent ev,
        recorded := [], written := [] }
  | SockRead.wouldBlock :: rest, last, ev => runContainerToSsh ra rest last ev
  | SockRead.data chunk drain :: rest, last, ev =>
      if chunk = "" then
        { exit := LoopExit.eofClean, eventSet := setEvent ev,
          recorded := [], written := [] }
      else
        match drain with
        | none =>
            let r := runContainerToSsh ra rest last ev
            { r with recorded := (if ra then [chunk] else []) ++ r.recorded,
                     written := chunk :: r.written }
        | some e =>
            { exit := exitOfErr e, eventSet := setEvent ev,
              recorded := if ra then [chunk] else [], written := [] }

/-- C8: whichever way either streaming loop exits — empty read (EOF),
connection reset, broken pipe, or any unexpected error, after any finite
script of reads and writes — it signals the shared completion event;
signalling is idempotent (setting an already-set event changes nothing,
so only the first signal has effect); `wait_completion` returns once the
event is set; and a session-input stream that immediately returns empty
ends `_ssh_to_container` without error (clean EOF exit) with the event
set. -/
theorem proxy_completion_signal :
    (∀ (ra : Bool) (steps : List (String × WriteOutcome)) (last : TerminalRead)
        (ev : Bool),
      (runSshToContainer ra steps last ev).eventSet = true ∧
      waitCompletionReturns (runSshToContainer ra steps last ev).eventSet) ∧
    (∀ (ra : Bool) (steps : List SockRead) (last : TerminalRead) (ev : Bool),
      (runContainerToSsh ra steps last ev).eventSet = true ∧
      waitCompletionReturns (runContainerToSsh ra steps last ev).eventSet) ∧
    (∀ e : Bool, setEvent (setEvent e) = setEvent e) ∧
    (runSshToContainer true [] TerminalRead.eof false).exit = LoopExit.eofClean ∧
    (runSshToContainer true [] TerminalRead.eof false).eventSet = true := by
  have hssh : ∀ (ra : Bool) (steps : List (String × WriteOutcome))
      (last : TerminalRead) (ev : Bool),
      (runSshToContainer ra steps last ev).eventSet = true := by
    intro ra steps last
    induction steps with
    | nil => intro ev; rfl
    | cons p rest ih =>
        intro ev
        rcases p with ⟨chunk, w⟩
        by_cases hc : chunk = ""
        · simp [runSshToContainer, hc, setEvent]
        · cases w with
          | ok => simp [runSshToContainer, hc, ih]
          | wouldBlockThen retry =>
              cases retry with
              | none => simp [runSshToContainer, hc, ih]
              | some e => simp [runSshToContainer, hc, setEvent]
          | fail e => simp [runSshToContainer, hc, setEvent]
  have hc2s : ∀ (ra : Bool) (steps : List SockRead) (last : TerminalRead)
      (ev : Bool),
      (runContainerToSsh ra steps last ev).eventSet = true := by
    intro ra steps last
    induction steps with
    | nil => intro ev; rfl
    | cons p rest ih =>
        intro ev
        cases p with
        | wouldBlock => simp [runContainerToSsh, ih]
        | data chunk drain =>
            by_cases hc : chunk = ""
            · simp [runContainerToSsh, hc, setEvent]
            · cases drain with
              | none => simp [runContainerToSsh, hc, ih]
              | some e => simp [runContainerToSsh, hc, setEvent]
  exact ⟨fun ra steps last ev => ⟨hssh ra steps last ev, hssh ra steps last ev⟩,
    fun ra steps last ev => ⟨hc2s ra steps last ev, hc2s ra steps last ev⟩,
    fun e => rfl, rfl, rfl⟩

end Hermes
